import Mathlib

/-!
Verification development for the vs-code-reference-refactor engine.

The development shallowly embeds the parts of the code that the claims
concern: the Node-style POSIX path helpers used by the path resolver
(src/utils/pathResolver.ts), the import-statement AST shapes consumed by
the import manager (src/utils/importManager.ts), the import rewriter
(calculateEditsForDocument and its three handlers), the change
calculator (calculateChanges), and the file relocation helpers
(src/utils/fileManager.ts).  Machine strings are Lean String values;
documents are a character list together with the parsed top-level
statement list; the workspace document store is a map from uri to text.
-/

namespace RefRefactor

/-! ## String primitives

Kernel-reducible models of the JS string operations the code uses; each
is defined structurally over the character list of the string. -/

/-- Whether one character list is a prefix-wise start of another. -/
def strStartsWithB (s pre : String) : Bool :=
  pre.data.isPrefixOf s.data

/-- Whether a string ends with a suffix. -/
def strEndsWithB (s post : String) : Bool :=
  post.data.reverse.isPrefixOf s.data.reverse

/-- Drop the final n characters. -/
def strDropRight (s : String) (n : Nat) : String :=
  String.mk (s.data.take (s.data.length - n))

/-- JS String.prototype.trimEnd. -/
def strTrimEnd (s : String) : String :=
  String.mk ((s.data.reverse.dropWhile Char.isWhitespace).reverse)

/-- JS String.prototype.trimStart. -/
def strTrimStart (s : String) : String :=
  String.mk (s.data.dropWhile Char.isWhitespace)

/-- Join strings with a separator, as Array.prototype.join. -/
def joinWithCh (sep : List Char) : List (List Char) → List Char
  | [] => []
  | [x] => x
  | x :: rest => x ++ sep ++ joinWithCh sep rest

/-- Join strings with a separator, as Array.prototype.join. -/
def joinWith (sep : String) (xs : List String) : String :=
  String.mk (joinWithCh sep.data (xs.map String.data))

/-- The JS code-unit lexicographic order on character lists. -/
def charsLe : List Char → List Char → Bool
  | [], _ => true
  | _ :: _, [] => false
  | a :: as, b :: bs =>
    if a.toNat < b.toNat then true
    else if b.toNat < a.toNat then false
    else charsLe as bs

/-- The JS default string comparison, smaller-or-equal form. -/
def strLe (a b : String) : Bool :=
  charsLe a.data b.data

/-! ## POSIX path model (Node path.dirname / path.resolve / path.relative / path.join)

The extension always works with absolute POSIX file paths, so the model
treats a path as its list of nonempty components between slashes. -/

/-- Split a character list at every slash, carrying the reversed
current chunk. -/
def splitSlashGo : List Char → List Char → List (List Char)
  | acc, [] => [acc.reverse]
  | acc, c :: rest =>
    if c = '/' then acc.reverse :: splitSlashGo [] rest else splitSlashGo (c :: acc) rest

/-- Split a path string into its nonempty components. -/
def splitPath (p : String) : List String :=
  ((splitSlashGo [] p.data).map String.mk).filter (fun s => s ≠ "")

/-- Reassemble components into an absolute path string. -/
def joinAbs (cs : List String) : String :=
  "/" ++ joinWith "/" cs

/-- Process relative components over a base component stack, the way the
Node path normalizer does: a dot is dropped, a dot-dot pops, anything
else pushes. -/
def resolveComps : List String → List String → List String
  | acc, [] => acc
  | acc, "." :: rest => resolveComps acc rest
  | acc, ".." :: rest => resolveComps acc.dropLast rest
  | acc, c :: rest => resolveComps (acc ++ [c]) rest

/-- Node path.resolve for an absolute base directory and one further
segment: an absolute segment wins outright, otherwise the segment is
normalized against the base. -/
def pathResolve (base seg : String) : String :=
  if strStartsWithB seg "/" then joinAbs (resolveComps [] (splitPath seg))
  else joinAbs (resolveComps (splitPath base) (splitPath seg))

/-- Drop the longest common component run of two component lists,
returning both remainders. -/
def dropCommonComps : List String → List String → List String × List String
  | a :: as, b :: bs => if a = b then dropCommonComps as bs else (a :: as, b :: bs)
  | as, bs => (as, bs)

/-- Node path.relative for two absolute paths: climb out of the
remainder of the source with dot-dot steps, then descend into the
remainder of the target. -/
def pathRelative (f t : String) : String :=
  let r := dropCommonComps (splitPath f) (splitPath t)
  joinWith "/" (r.1.map (fun _ => "..") ++ r.2)

/-- Node path.dirname for an absolute path. -/
def pathDirname (p : String) : String :=
  joinAbs ((splitPath p).dropLast)

/-- Node path.join for an absolute first argument. -/
def pathJoin (a b : String) : String :=
  joinAbs (resolveComps (splitPath a) (splitPath b))

/-! ## AST shapes used by the import manager

Mirrors the TypeScript compiler node shapes the code inspects: an import
declaration with an optional import clause, whose named bindings are
either a NamedImports element list (each element contributing the bound
local name) or a namespace import. -/

/-- Named bindings of an import clause. -/
inductive NamedBindings where
  | namedImports (elements : List String)
  | namespaceImport (name : String)
deriving DecidableEq, Repr

/-- Import clause: the type-only flag plus optional named bindings. -/
structure ImportClause where
  isTypeOnly : Bool
  namedBindings : Option NamedBindings
deriving DecidableEq, Repr

/-- A top-level import declaration together with its text span. -/
structure ImportDeclarationNode where
  moduleSpecifier : String
  importClause : Option ImportClause
  startOff : Nat
  endOff : Nat
deriving DecidableEq, Repr

/-- A top-level statement as the scan distinguishes them. -/
inductive Statement where
  | importDecl (d : ImportDeclarationNode)
  | other (startOff endOff : Nat)
deriving DecidableEq, Repr

/-- A text document: its character content plus the statement list the
external parser produces for that content. -/
structure TextDocument where
  text : List Char
  statements : List Statement

/-- A line-and-column position, as vscode.Position. -/
structure TextPosition where
  line : Nat
  character : Nat
deriving DecidableEq, Repr

/-- A text range between two positions, as vscode.Range. -/
structure EditRange where
  startPos : TextPosition
  endPos : TextPosition
deriving DecidableEq, Repr

/-- One pending edit: a range plus replacement text. -/
structure ImportEdit where
  range : EditRange
  newText : String
deriving DecidableEq, Repr

/-- Line number of a character offset: newlines strictly before it. -/
def lineOf (text : List Char) (off : Nat) : Nat :=
  (text.take off).count '\n'

/-- Column of a character offset: characters since the last newline. -/
def colOf (text : List Char) (off : Nat) : Nat :=
  ((text.take off).reverse.takeWhile (fun ch => ch ≠ '\n')).length

/-- vscode positionAt on the model document. -/
def positionAt (doc : TextDocument) (off : Nat) : TextPosition :=
  { line := lineOf doc.text off, character := colOf doc.text off }

/-- ImportManager.createEdit: an edit whose range converts the two
offsets through positionAt. -/
def createEdit (s e : Nat) (newText : String) (doc : TextDocument) : ImportEdit :=
  { range := { startPos := positionAt doc s, endPos := positionAt doc e }, newText := newText }

/-- Render an import statement from the template the rewriter uses:
the word import, the keyword, braced names, from, quoted specifier. -/
def mkImportText (keyword names specifier : String) : String :=
  "import " ++ keyword ++ "\x7b " ++ names ++ " \x7d from \x22" ++ specifier ++ "\x22;"

/-! ## PathResolver (src/utils/pathResolver.ts)

The resolver state is the three private fields baseUrl, paths and
configDir; each is Option-valued because loadTsConfig may leave them
unset.  The paths table is kept as a list of pattern-target pairs so the
insertion order of the configuration object survives, matching the
Object.entries iteration of tryMatchPathAlias. -/

/-- The three private fields of a PathResolver after construction. -/
structure ResolverState where
  baseUrl : Option String
  paths : Option (List (String × List String))
  configDir : Option String

/-- Drop one trailing star, as the aliasPattern.replace star-regex. -/
def stripStar (s : String) : String :=
  if strEndsWithB s "*" then strDropRight s 1 else s

/-- Strip a ts, tsx or vue extension, as the final replace of
tryMatchPathAlias. -/
def stripSourceExt (s : String) : String :=
  if strEndsWithB s ".tsx" then strDropRight s 4
  else if strEndsWithB s ".vue" then strDropRight s 4
  else if strEndsWithB s ".ts" then strDropRight s 3
  else s

/-- Resolved target directory of one paths entry.  The code indexes
aliasTargets[0]; a configuration always carries at least one target, so
a missing head is modeled as the empty template. -/
def entryTargetDir (absBaseUrl : String) (e : String × List String) : String :=
  pathResolve absBaseUrl (stripStar (e.2.headD ""))

/-- Whether one paths entry matches an absolute file path, by the
string-prefix test the loop performs. -/
def entryMatches (absBaseUrl absFilePath : String) (e : String × List String) : Bool :=
  strStartsWithB absFilePath (entryTargetDir absBaseUrl e)

/-- The specifier one matching paths entry produces. -/
def entryResult (absBaseUrl absFilePath : String) (e : String × List String) : String :=
  stripSourceExt (stripStar e.1 ++ pathRelative (entryTargetDir absBaseUrl e) absFilePath)

/-- The entry loop of tryMatchPathAlias: first matching pattern wins. -/
def tryAliasEntries (absBaseUrl absFilePath : String) :
    List (String × List String) → Option String
  | [] => none
  | e :: rest =>
    if entryMatches absBaseUrl absFilePath e then some (entryResult absBaseUrl absFilePath e)
    else tryAliasEntries absBaseUrl absFilePath rest

/-- PathResolver.tryMatchPathAlias: undefined unless paths, baseUrl and
configDir are all configured, otherwise the first-match entry loop over
baseUrl resolved against the configuration directory. -/
def tryMatchPathAlias (st : ResolverState) (absFilePath : String) : Option String :=
  match st.paths, st.baseUrl, st.configDir with
  | some entries, some baseUrl, some configDir =>
    tryAliasEntries (pathResolve configDir baseUrl) absFilePath entries
  | _, _, _ => none

/-- The relative-path fallback of resolveImportPath: a path relative to
the directory of fromPath, prefixed with a dot-slash when it does not
already start with a dot. -/
def relativeSpecifier (fromPath toPath : String) : String :=
  let relativePath := pathRelative (pathDirname fromPath) toPath
  if strStartsWithB relativePath "." then relativePath else "./" ++ relativePath

/-- PathResolver.resolveImportPath: alias first, relative fallback. -/
def resolveImportPath (st : ResolverState) (fromPath toPath : String) : String :=
  match tryMatchPathAlias st toPath with
  | some aliasPath => aliasPath
  | none => relativeSpecifier fromPath toPath

/-! ## loadTsConfig (PathResolver construction)

The configuration lookup consumes external capabilities: the editor
setting typeRefactor.tsconfig, the project-root search for a
configuration file, a file-existence test, and a reader that either
yields the compilerOptions fields or fails.  All four are fields of a
ConfigEnv value. -/

/-- The compilerOptions fields loadTsConfig reads from a parsed file. -/
structure RawCompilerOptions where
  baseUrl : Option String
  paths : Option (List (String × List String))

/-- The external capabilities loadTsConfig consumes. -/
structure ConfigEnv where
  settingsTsconfig : Option String
  foundConfigFile : Option String
  fileExists : String → Bool
  readConfig : String → Except String RawCompilerOptions

/-- The configuration path loadTsConfig settles on: the settings value
joined onto the workspace root when the setting is a nonempty string
(the code tests JS truthiness), otherwise the project-root search. -/
def effectiveConfigPath (env : ConfigEnv) (workspaceRoot : String) : Option String :=
  match env.settingsTsconfig with
  | some rel => if rel = "" then env.foundConfigFile else some (pathJoin workspaceRoot rel)
  | none => env.foundConfigFile

/-- PathResolver.loadTsConfig: every failure path returns with all three
fields unset; success stores the configuration directory, the baseUrl
defaulted to a dot, and the paths table exactly as found (possibly
absent).  The construction itself never fails: it always yields a
ResolverState. -/
def loadTsConfig (env : ConfigEnv) (workspaceRoot : String) : ResolverState :=
  if workspaceRoot = "" then { baseUrl := none, paths := none, configDir := none }
  else
    match effectiveConfigPath env workspaceRoot with
    | none => { baseUrl := none, paths := none, configDir := none }
    | some configPath =>
      if env.fileExists configPath = false then
        { baseUrl := none, paths := none, configDir := none }
      else
        match env.readConfig configPath with
        | Except.error _ => { baseUrl := none, paths := none, configDir := none }
        | Except.ok raw =>
          { baseUrl := some (match raw.baseUrl with
              | some b => if b = "" then "." else b
              | none => ".")
            paths := raw.paths
            configDir := some (pathDirname configPath) }

/-- Whether the configuration load hits one of the failure cases: no
workspace root, no configuration file found, the found file does not
exist, the read or parse fails, or the paths field is missing. -/
def configLoadFailed (env : ConfigEnv) (workspaceRoot : String) : Bool :=
  workspaceRoot == "" ||
    match effectiveConfigPath env workspaceRoot with
    | none => true
    | some configPath =>
      !env.fileExists configPath ||
        match env.readConfig configPath with
        | Except.error _ => true
        | Except.ok raw => raw.paths.isNone

/-! ## ImportManager (src/utils/importManager.ts) -/

/-- One import change, as the ImportChange interface. -/
structure ImportChange where
  uri : String
  oldImportPath : String
  newImportPath : String
  typeName : String
  isTypeOnly : Bool
deriving DecidableEq, Repr

/-- The aggregate calculateChanges produces. -/
structure Changes where
  importChanges : List ImportChange
  typeContent : String
deriving DecidableEq, Repr

/-- ImportManager.getNamedImports: the element names when the clause
exists and its bindings are NamedImports, nothing otherwise. -/
def getNamedImports (d : ImportDeclarationNode) : Option (List String) :=
  match d.importClause with
  | some clause =>
    match clause.namedBindings with
    | some (NamedBindings.namedImports elements) => some elements
    | _ => none
  | none => none

/-- The type-only flag of a declaration, false when the clause is
absent, as the importClause question-mark access. -/
def clauseIsTypeOnly (d : ImportDeclarationNode) : Bool :=
  match d.importClause with
  | some clause => clause.isTypeOnly
  | none => false

/-- Whether a declaration binds a name among its named imports. -/
def bindsName (d : ImportDeclarationNode) (n : String) : Bool :=
  match getNamedImports d with
  | some elements => elements.contains n
  | none => false

/-- One step of the findExistingImportPath scan: a declaration whose
named imports include the type name overwrites the running result with
its specifier and type-only flag; everything else keeps it. -/
def findStep (typeName : String) (result : String × Bool) (s : Statement) : String × Bool :=
  match s with
  | Statement.importDecl d =>
    match getNamedImports d with
    | some elements =>
      if elements.contains typeName then (d.moduleSpecifier, clauseIsTypeOnly d) else result
    | none => result
  | Statement.other _ _ => result

/-- ImportManager.findExistingImportPath: scan every top-level import
declaration in file order starting from the empty result. -/
def findExistingImportPath (stmts : List Statement) (typeName : String) : String × Bool :=
  stmts.foldl (findStep typeName) ("", false)

/-- The import declarations of a file whose named imports include a
name, in file order. -/
def matchingImports (stmts : List Statement) (typeName : String) : List ImportDeclarationNode :=
  stmts.filterMap (fun s =>
    match s with
    | Statement.importDecl d =>
      match getNamedImports d with
      | some elements => if elements.contains typeName then some d else none
      | none => none
    | Statement.other _ _ => none)

/-- The JS Array sort on strings: the stable sort under the code-unit
order, modeled by insertion sort under the String linear order. -/
def jsSortStrings (xs : List String) : List String :=
  List.insertionSort (fun a b => strLe a b = true) xs

/-- Whether the element list is a single binding of exactly the moved
name, the first test of handleOldImportPath. -/
def soleBinding (elements : List String) (n : String) : Bool :=
  match elements with
  | [e] => e == n
  | _ => false

/-- ImportManager.handleOldImportPath: on a declaration at the old
specifier, delete the whole import when it only binds the moved name;
when it binds the moved name among others, replace it with an import of
the remaining names in their original order, type-only when the
original clause or the change is type-only; otherwise no edit. -/
def handleOldImportPath (d : ImportDeclarationNode) (doc : TextDocument)
    (c : ImportChange) : List ImportEdit :=
  match d.importClause with
  | none => []
  | some clause =>
    match clause.namedBindings with
    | some (NamedBindings.namedImports elements) =>
      if soleBinding elements c.typeName then
        [createEdit d.startOff d.endOff "" doc]
      else if elements.contains c.typeName then
        let remainingTypes := joinWith ", " (elements.filter (fun e => e != c.typeName))
        let typeKeyword := if clause.isTypeOnly || c.isTypeOnly then "type " else ""
        [createEdit d.startOff d.endOff (mkImportText typeKeyword remainingTypes d.moduleSpecifier) doc]
      else []
    | _ => []

/-- ImportManager.handleNewImportPath: on a declaration at the new
specifier whose named imports lack the moved name, replace it with
an import of the existing names plus the moved name, sorted, type-only
when the existing clause or the change is type-only; no edit when the
name is already bound. -/
def handleNewImportPath (d : ImportDeclarationNode) (doc : TextDocument)
    (c : ImportChange) : List ImportEdit :=
  match d.importClause with
  | none => []
  | some clause =>
    match clause.namedBindings with
    | some (NamedBindings.namedImports elements) =>
      if elements.contains c.typeName then []
      else
        let sortedTypes := joinWith ", " (jsSortStrings (elements ++ [c.typeName]))
        let shouldBeTypeOnly := clause.isTypeOnly || c.isTypeOnly
        let typeKeyword := if shouldBeTypeOnly then "type " else ""
        [createEdit d.startOff d.endOff (mkImportText typeKeyword sortedTypes d.moduleSpecifier) doc]
    | _ => []

/-- The freshly synthesized import statement of addNewImport, with its
trailing newline. -/
def importStatementText (c : ImportChange) : String :=
  if c.isTypeOnly then
    "import type \x7b " ++ c.typeName ++ " \x7d from \x22" ++ c.newImportPath ++ "\x22;\n"
  else
    "import \x7b " ++ c.typeName ++ " \x7d from \x22" ++ c.newImportPath ++ "\x22;\n"

/-- ImportManager.addNewImport: insert the synthesized statement at
column zero of the line after the line holding lastImportPos. -/
def addNewImport (lastImportPos : Nat) (doc : TextDocument) (c : ImportChange) :
    List ImportEdit :=
  let pos := (positionAt doc lastImportPos).line + 1
  [{ range := { startPos := { line := pos, character := 0 },
                endPos := { line := pos, character := 0 } },
     newText := importStatementText c }]

/-- One step of the calculateEditsForDocument scan over top-level
statements, carrying the accumulated edits, the hasExistingImport flag
and lastImportPos. -/
def scanStep (doc : TextDocument) (c : ImportChange)
    (acc : List ImportEdit × Bool × Nat) : Statement → List ImportEdit × Bool × Nat
  | Statement.importDecl d =>
    if d.moduleSpecifier == c.oldImportPath then
      (acc.1 ++ handleOldImportPath d doc c, acc.2.1, d.endOff)
    else if d.moduleSpecifier == c.newImportPath then
      (acc.1 ++ handleNewImportPath d doc c, true, d.endOff)
    else (acc.1, acc.2.1, d.endOff)
  | Statement.other _ _ => acc

/-- The full statement scan of calculateEditsForDocument. -/
def scanImports (doc : TextDocument) (c : ImportChange) : List ImportEdit × Bool × Nat :=
  doc.statements.foldl (scanStep doc c) ([], false, 0)

/-- The final sort of calculateEditsForDocument: stable descending by
the start line of each edit, as the JS comparator subtracting lines. -/
def sortEdits (es : List ImportEdit) : List ImportEdit :=
  List.insertionSort (fun a b => b.range.startPos.line ≤ a.range.startPos.line) es

/-- ImportManager.calculateEditsForDocument: scan the statements, add
the synthesized import when no declaration sat at the new specifier,
then sort the edits last-to-first. -/
def calculateEditsForDocument (doc : TextDocument) (c : ImportChange) : List ImportEdit :=
  let r := scanImports doc c
  let edits := if r.2.1 then r.1 else r.1 ++ addNewImport r.2.2 doc c
  sortEdits edits

/-- The end offset of the last import declaration of a statement list,
zero when there is none, as the lastImportPos variable. -/
def lastImportOffset (stmts : List Statement) : Nat :=
  stmts.foldl (fun acc s =>
    match s with
    | Statement.importDecl d => d.endOff
    | Statement.other _ _ => acc) 0

/-- Whether no import declaration of the file sits at the new
specifier. -/
def noImportAtNewSpecifier (c : ImportChange) (stmts : List Statement) : Bool :=
  stmts.all (fun s =>
    match s with
    | Statement.importDecl d => !(d.moduleSpecifier == c.newImportPath)
    | Statement.other _ _ => true)

/-- Whether the file has no import declarations at all. -/
def hasNoImports (stmts : List Statement) : Bool :=
  stmts.all (fun s =>
    match s with
    | Statement.importDecl _ => false
    | Statement.other _ _ => true)

/-- The single edit addNewImport contributes, given where the last
node of the document ends. -/
def newImportEdit (doc : TextDocument) (c : ImportChange) : ImportEdit :=
  { range := { startPos := { line := lineOf doc.text (lastImportOffset doc.statements) + 1,
                             character := 0 },
               endPos := { line := lineOf doc.text (lastImportOffset doc.statements) + 1,
                           character := 0 } },
    newText := importStatementText c }

/-- Whether some import at the new specifier binds the moved name. -/
def someImportBindsAtNew (c : ImportChange) (stmts : List Statement) : Bool :=
  stmts.any (fun s =>
    match s with
    | Statement.importDecl d =>
      d.moduleSpecifier == c.newImportPath && bindsName d c.typeName
    | Statement.other _ _ => false)

/-- Whether every named-bindings import at the new specifier already
binds the moved name. -/
def allNewImportsBind (c : ImportChange) (stmts : List Statement) : Bool :=
  stmts.all (fun s =>
    match s with
    | Statement.importDecl d =>
      !(d.moduleSpecifier == c.newImportPath) ||
        (match getNamedImports d with
         | some es => es.contains c.typeName
         | none => true)
    | Statement.other _ _ => true)

/-- Whether no import at the old specifier binds the moved name. -/
def noOldImportBinds (c : ImportChange) (stmts : List Statement) : Bool :=
  stmts.all (fun s =>
    match s with
    | Statement.importDecl d =>
      !(d.moduleSpecifier == c.oldImportPath) || !(bindsName d c.typeName)
    | Statement.other _ _ => true)

/-! ## Document store and FileManager (src/utils/fileManager.ts)

The workspace document store maps a uri to the current text of that
file, or none when the file does not exist. -/

/-- The workspace document store. -/
def FileStore : Type := String → Option String

/-- FileManager.deleteTypeFromSource: remove the span of the moved
declaration from the source file. -/
def deleteTypeFromSource (store : FileStore) (uri : String) (nodeStart nodeEnd : Nat) :
    FileStore :=
  fun u =>
    if u = uri then
      (store uri).map (fun t => String.mk (t.data.take nodeStart ++ t.data.drop nodeEnd))
    else store u

/-- FileManager.createDestinationFile: when the destination exists,
replace its whole content with the trimmed existing content, a blank
line, and the trimmed new content; when opening fails because it does
not exist, create it with the content at offset zero. -/
def createDestinationFile (store : FileStore) (uri : String) (content : String) :
    FileStore :=
  match store uri with
  | some existingContent =>
    fun u => if u = uri then some (strTrimEnd existingContent ++ "\n\n" ++ strTrimStart content)
             else store u
  | none =>
    fun u => if u = uri then some content else store u

/-! ## calculateChanges (ImportManager.calculateChanges)

The loop opens each referencing document from the store, parses it with
the external parser capability, scans for the existing import of the
moved type, and accumulates an ImportChange per reference that had one.
Opening a missing document raises, which aborts the loop with an error;
the store is threaded through every step so the returned store exposes
exactly the mutations performed. -/

/-- The reference loop of calculateChanges.  Each iteration reads one
document from the store; a missing document aborts like the rejected
openTextDocument promise; a reference with no existing import of the
type is skipped; otherwise the change record is built with the alias
path when one matches and the resolved import path otherwise. -/
def calcRefLoop (st : ResolverState) (parse : String → List Statement)
    (typeName destPath : String) :
    List String → FileStore → Except String (List ImportChange) × FileStore
  | [], store => (Except.ok [], store)
  | refUri :: rest, store =>
    match store refUri with
    | none => (Except.error ("cannot open document " ++ refUri), store)
    | some refText =>
      let stmts := parse refText
      let found := findExistingImportPath stmts typeName
      if found.1 == "" then calcRefLoop st parse typeName destPath rest store
      else
        let newImportPath :=
          match tryMatchPathAlias st destPath with
          | some aliasPath =>
            if aliasPath = "" then resolveImportPath st refUri destPath else aliasPath
          | none => resolveImportPath st refUri destPath
        match calcRefLoop st parse typeName destPath rest store with
        | (Except.ok cs, store₁) =>
          (Except.ok ({ uri := refUri, oldImportPath := found.1,
                        newImportPath := newImportPath, typeName := typeName,
                        isTypeOnly := found.2 } :: cs), store₁)
        | (Except.error e, store₁) => (Except.error e, store₁)

/-- ImportManager.calculateChanges over the document store: the moved
declaration text plus one ImportChange per reference that imported the
type. -/
def calculateChanges (st : ResolverState) (parse : String → List Statement)
    (typeName nodeText destPath : String) (references : List String)
    (store : FileStore) : Except String Changes × FileStore :=
  match calcRefLoop st parse typeName destPath references store with
  | (Except.ok cs, store₁) => (Except.ok { importChanges := cs, typeContent := nodeText }, store₁)
  | (Except.error e, store₁) => (Except.error e, store₁)

/-! ## Concrete instances for witnesses, counterexamples and the move scenario -/

/-- An empty document for handler-level witnesses; the handlers use the
document only to convert offsets into positions. -/
def mergeDoc : TextDocument := ⟨[], []⟩

def c1clause : ImportClause := ⟨false, some (NamedBindings.namedImports ["X"])⟩

def c1decl : ImportDeclarationNode := ⟨"p", some c1clause, 0, 24⟩

def c1change : ImportChange := ⟨"/proj/user.ts", "./old", "p", "Y", false⟩

def c2clause : ImportClause := ⟨true, some (NamedBindings.namedImports ["X"])⟩

def c2decl : ImportDeclarationNode := ⟨"@/types", some c2clause, 0, 30⟩

def c2change : ImportChange := ⟨"/proj/user.ts", "./old", "@/types", "Y", false⟩

def c3clause : ImportClause := ⟨false, some (NamedBindings.namedImports ["Zeta", "Foo", "Alpha"])⟩

def c3decl : ImportDeclarationNode := ⟨"./old", some c3clause, 0, 40⟩

def c3change : ImportChange := ⟨"/proj/user.ts", "./old", "./new", "Foo", true⟩

/-- The replacement text claim C3 predicts for a multi-binding import at
the old specifier, following the words of the spec: the remaining
bindings alphabetically sorted, and the type keyword exactly when the
original declaration was type-only. -/
def specC3ReplacementText (d : ImportDeclarationNode) (c : ImportChange) : String :=
  mkImportText (if clauseIsTypeOnly d then "type " else "")
    (joinWith ", " (jsSortStrings (((getNamedImports d).getD []).filter (fun e => e != c.typeName))))
    d.moduleSpecifier

def c4doc : TextDocument := ⟨("const x = 1;\n").data, [Statement.other 0 12]⟩

def c4change : ImportChange := ⟨"/proj/user.ts", "./q", "./c", "Foo", false⟩

/-- The declaration text of the moved interface in the scenario. -/
def fooDecl : String := "export interface Foo \x7b id: string \x7d"

/-- The content of the referencing file b.ts in the scenario. -/
def bText : String := "import \x7b Foo \x7d from \x22./a\x22;\nconst user: Foo = 1;\n"

/-- The parsed statements of b.ts: its import of Foo from ./a followed
by one other statement. -/
def bStmts : List Statement :=
  [Statement.importDecl ⟨"./a", some ⟨false, some (NamedBindings.namedImports ["Foo"])⟩, 0, 26⟩,
   Statement.other 27 47]

def bDoc : TextDocument := ⟨bText.data, bStmts⟩

/-- The scenario document store: a.ts holds the interface, b.ts the
referencing file, and c.ts does not exist yet. -/
def storeABC : FileStore := fun u =>
  if u = "/proj/a.ts" then some (fooDecl ++ "\n")
  else if u = "/proj/b.ts" then some bText
  else none

/-- The parser capability restricted to the scenario documents. -/
def parseScenario : String → List Statement := fun t => if t = bText then bStmts else []

/-- A resolver with no alias configuration loaded. -/
def resolverNoAlias : ResolverState := ⟨none, none, none⟩

/-- The import change the scenario computes for b.ts. -/
def c5change : ImportChange := ⟨"/proj/b.ts", "./a", "./c.ts", "Foo", false⟩

/-- The alias configuration of the claim: baseUrl ./src under /root and
the single pattern mapping the at-sign to the base directory. -/
def aliasCfg : ResolverState := ⟨some "./src", some [("@/*", ["*"])], some "/root"⟩

def c8doc : TextDocument :=
  ⟨[], [Statement.importDecl ⟨"./p", some ⟨false, some (NamedBindings.namedImports ["Foo"])⟩, 0, 25⟩,
        Statement.importDecl ⟨"./p", some ⟨false, some (NamedBindings.namedImports ["Bar"])⟩, 26, 51⟩]⟩

def c8change : ImportChange := ⟨"/proj/user.ts", "./q", "./p", "Foo", false⟩

def c8wdoc : TextDocument :=
  ⟨[], [Statement.importDecl ⟨"./p", some ⟨false, some (NamedBindings.namedImports ["Bar", "Foo"])⟩, 0, 30⟩,
        Statement.importDecl ⟨"./other", some ⟨false, some (NamedBindings.namedImports ["Baz"])⟩, 31, 62⟩]⟩

def failEnv : ConfigEnv := ⟨none, none, fun _ => false, fun _ => Except.error "parse error"⟩

/-! ## General lemmas about the embedded definitions -/

/-- The JS code-unit order is total. -/
theorem charsLe_total : ∀ as bs : List Char, charsLe as bs = true ∨ charsLe bs as = true := by
  intro as
  induction as with
  | nil => intro bs; left; cases bs <;> rfl
  | cons a as ih =>
    intro bs
    cases bs with
    | nil => right; rfl
    | cons b bs =>
      rcases Nat.lt_trichotomy a.toNat b.toNat with h | h | h
      · left; simp [charsLe, h]
      · have h1 : ¬ a.toNat < b.toNat := by omega
        have h2 : ¬ b.toNat < a.toNat := by omega
        simpa [charsLe, h1, h2] using ih bs
      · right; simp [charsLe, h]

/-- The JS code-unit order is transitive. -/
theorem charsLe_trans : ∀ as bs cs : List Char,
    charsLe as bs = true → charsLe bs cs = true → charsLe as cs = true := by
  intro as
  induction as with
  | nil => intro bs cs _ _; cases cs <;> rfl
  | cons a as ih =>
    intro bs cs h1 h2
    cases bs with
    | nil => simp [charsLe] at h1
    | cons b bs =>
      cases cs with
      | nil => simp [charsLe] at h2
      | cons c cs =>
        simp only [charsLe] at h1 h2 ⊢
        by_cases hab : a.toNat < b.toNat <;> by_cases hba : b.toNat < a.toNat <;>
          by_cases hbc : b.toNat < c.toNat <;> by_cases hcb : c.toNat < b.toNat <;>
            simp [hab, hba, hbc, hcb] at h1 h2 ⊢ <;>
              first
                | omega
                | exact Or.inl (by omega)
                | exact Or.inr ⟨by omega, ih bs cs h1 h2⟩

instance strLeTotal : IsTotal String (fun a b => strLe a b = true) :=
  ⟨fun a b => charsLe_total a.data b.data⟩

instance strLeTrans : IsTrans String (fun a b => strLe a b = true) :=
  ⟨fun a b c => charsLe_trans a.data b.data c.data⟩

/-- The modeled JS sort yields a list sorted under the code-unit order. -/
theorem jsSortStrings_sorted (xs : List String) :
    List.Sorted (fun a b => strLe a b = true) (jsSortStrings xs) :=
  List.sorted_insertionSort _ xs

/-- The modeled JS sort permutes its input. -/
theorem jsSortStrings_perm (xs : List String) : List.Perm (jsSortStrings xs) xs :=
  List.perm_insertionSort _ xs

/-- The final descending sort of the rewriter permutes the edit list. -/
theorem sortEdits_perm (es : List ImportEdit) : List.Perm (sortEdits es) es :=
  List.perm_insertionSort _ es

/-- Whether a list contains a string is membership. -/
theorem strContains_iff (es : List String) (n : String) : es.contains n = true ↔ n ∈ es :=
  List.elem_iff

theorem matchingImports_cons_other (a b : Nat) (rest : List Statement) (n : String) :
    matchingImports (Statement.other a b :: rest) n = matchingImports rest n := by
  simp [matchingImports, List.filterMap_cons]

theorem matchingImports_cons_none (d : ImportDeclarationNode) (rest : List Statement) (n : String)
    (h : getNamedImports d = none) :
    matchingImports (Statement.importDecl d :: rest) n = matchingImports rest n := by
  simp [matchingImports, List.filterMap_cons, h]

theorem matchingImports_cons_hit (d : ImportDeclarationNode) (rest : List Statement) (n : String)
    (es : List String) (h : getNamedImports d = some es) (hc : es.contains n = true) :
    matchingImports (Statement.importDecl d :: rest) n = d :: matchingImports rest n := by
  have hmem : n ∈ es := (strContains_iff es n).mp hc
  simp [matchingImports, List.filterMap_cons, h, hmem]

theorem matchingImports_cons_miss (d : ImportDeclarationNode) (rest : List Statement) (n : String)
    (es : List String) (h : getNamedImports d = some es) (hc : es.contains n = false) :
    matchingImports (Statement.importDecl d :: rest) n = matchingImports rest n := by
  have hnm : ¬ n ∈ es := by
    intro hm
    rw [(strContains_iff es n).mpr hm] at hc
    exact Bool.true_eq_false.mp hc
  simp [matchingImports, List.filterMap_cons, h, hnm]

theorem findFoldAux (typeName : String) : ∀ (stmts : List Statement) (acc : String × Bool),
    stmts.foldl (findStep typeName) acc =
      (((matchingImports stmts typeName).getLast?).map
        (fun d => (d.moduleSpecifier, clauseIsTypeOnly d))).getD acc := by
  intro stmts
  induction stmts with
  | nil => intro acc; rfl
  | cons s rest ih =>
    intro acc
    cases s with
    | other a b =>
      rw [List.foldl_cons, matchingImports_cons_other]
      exact ih acc
    | importDecl d =>
      cases hni : getNamedImports d with
      | none =>
        rw [List.foldl_cons, matchingImports_cons_none d rest typeName hni]
        have hstep : findStep typeName acc (Statement.importDecl d) = acc := by
          simp [findStep, hni]
        rw [hstep]
        exact ih acc
      | some es =>
        cases hc : es.contains typeName with
        | true =>
          rw [List.foldl_cons, matchingImports_cons_hit d rest typeName es hni hc]
          have hmem : typeName ∈ es := (strContains_iff es typeName).mp hc
          have hstep : findStep typeName acc (Statement.importDecl d) =
              (d.moduleSpecifier, clauseIsTypeOnly d) := by
            simp [findStep, hni, hc, hmem]
          rw [hstep, ih]
          cases hm : matchingImports rest typeName with
          | nil => simp
          | cons x xs =>
            obtain ⟨y, hy⟩ : ∃ y, (x :: xs).getLast? = some y := by
              cases hl : (x :: xs).getLast? with
              | none => simp at hl
              | some y => exact ⟨y, rfl⟩
            simp [hy]
        | false =>
          rw [List.foldl_cons, matchingImports_cons_miss d rest typeName es hni hc]
          have hnm : ¬ typeName ∈ es := by
            intro hm2
            rw [(strContains_iff es typeName).mpr hm2] at hc
            exact Bool.true_eq_false.mp hc
          have hstep : findStep typeName acc (Statement.importDecl d) = acc := by
            simp [findStep, hni, hnm]
          rw [hstep]
          exact ih acc

theorem findExistingLastWins (stmts : List Statement) (typeName : String) :
    findExistingImportPath stmts typeName =
      (((matchingImports stmts typeName).getLast?).map
        (fun d => (d.moduleSpecifier, clauseIsTypeOnly d))).getD ("", false) :=
  findFoldAux typeName stmts ("", false)

theorem soleBinding_contains (es : List String) (n : String)
    (h : soleBinding es n = true) : es.contains n = true := by
  cases es with
  | nil => simp [soleBinding] at h
  | cons e rest =>
    cases rest with
    | nil =>
      simp only [soleBinding] at h
      have he : e = n := eq_of_beq h
      subst he
      simp
    | cons f rest2 => simp [soleBinding] at h

theorem contains_false_not_mem (es : List String) (n : String)
    (h : es.contains n = false) : ¬ n ∈ es := by
  intro hm
  rw [(strContains_iff es n).mpr hm] at h
  exact Bool.true_eq_false.mp h

theorem handleOld_nil_of_unbound (d : ImportDeclarationNode) (doc : TextDocument)
    (c : ImportChange) (h : bindsName d c.typeName = false) :
    handleOldImportPath d doc c = [] := by
  cases hcl : d.importClause with
  | none => simp [handleOldImportPath, hcl]
  | some clause =>
    cases hnb : clause.namedBindings with
    | none => simp [handleOldImportPath, hcl, hnb]
    | some nb =>
      cases nb with
      | namespaceImport nm => simp [handleOldImportPath, hcl, hnb]
      | namedImports es =>
        have hb : es.contains c.typeName = false := by
          simp only [bindsName, getNamedImports, hcl, hnb] at h
          exact h
        have hs : soleBinding es c.typeName = false := by
          cases h2 : soleBinding es c.typeName
          · rfl
          · rw [soleBinding_contains es c.typeName h2] at hb
            exact absurd hb (by simp)
        have hnm : ¬ c.typeName ∈ es := contains_false_not_mem es c.typeName hb
        simp [handleOldImportPath, hcl, hnb, hs, hb, hnm]

theorem handleNew_nil_of_bound (d : ImportDeclarationNode) (doc : TextDocument)
    (c : ImportChange)
    (h : (match getNamedImports d with
          | some es => es.contains c.typeName
          | none => true) = true) :
    handleNewImportPath d doc c = [] := by
  cases hcl : d.importClause with
  | none => simp [handleNewImportPath, hcl]
  | some clause =>
    cases hnb : clause.namedBindings with
    | none => simp [handleNewImportPath, hcl, hnb]
    | some nb =>
      cases nb with
      | namespaceImport nm => simp [handleNewImportPath, hcl, hnb]
      | namedImports es =>
        have hb : es.contains c.typeName = true := by
          simp only [getNamedImports, hcl, hnb] at h
          exact h
        have hm : c.typeName ∈ es := (strContains_iff es c.typeName).mp hb
        simp [handleNewImportPath, hcl, hnb, hb, hm]

theorem scan_edits_eq_acc (doc : TextDocument) (c : ImportChange) :
    ∀ (stmts : List Statement) (acc : List ImportEdit × Bool × Nat),
      allNewImportsBind c stmts = true → noOldImportBinds c stmts = true →
      (stmts.foldl (scanStep doc c) acc).1 = acc.1 := by
  intro stmts
  induction stmts with
  | nil => intro acc _ _; rfl
  | cons s rest ih =>
    intro acc hall hnold
    rw [List.foldl_cons]
    cases s with
    | other a b =>
      simp only [allNewImportsBind, List.all_cons, Bool.and_eq_true] at hall
      simp only [noOldImportBinds, List.all_cons, Bool.and_eq_true] at hnold
      exact ih acc hall.2 hnold.2
    | importDecl d =>
      simp only [allNewImportsBind, List.all_cons, Bool.and_eq_true] at hall
      simp only [noOldImportBinds, List.all_cons, Bool.and_eq_true] at hnold
      by_cases hold : d.moduleSpecifier == c.oldImportPath
      · have hub : bindsName d c.typeName = false := by
          have := hnold.1
          simp only [hold, Bool.not_true, Bool.false_or] at this
          cases hbn : bindsName d c.typeName
          · rfl
          · rw [hbn] at this; exact absurd this (by simp)
        have hstep : scanStep doc c acc (Statement.importDecl d) =
            (acc.1, acc.2.1, d.endOff) := by
          simp [scanStep, hold, handleOld_nil_of_unbound d doc c hub]
        rw [hstep]
        exact ih _ hall.2 hnold.2
      · by_cases hnew : d.moduleSpecifier == c.newImportPath
        · have hbound : (match getNamedImports d with
              | some es => es.contains c.typeName
              | none => true) = true := by
            have := hall.1
            simp only [hnew, Bool.not_true, Bool.false_or] at this
            exact this
          have hstep : scanStep doc c acc (Statement.importDecl d) =
              (acc.1, true, d.endOff) := by
            simp [scanStep, hold, hnew, handleNew_nil_of_bound d doc c hbound]
          rw [hstep]
          exact ih _ hall.2 hnold.2
        · have hstep : scanStep doc c acc (Statement.importDecl d) =
              (acc.1, acc.2.1, d.endOff) := by
            simp [scanStep, hold, hnew]
          rw [hstep]
          exact ih _ hall.2 hnold.2

theorem scan_flag_monotone (doc : TextDocument) (c : ImportChange) :
    ∀ (stmts : List Statement) (acc : List ImportEdit × Bool × Nat),
      acc.2.1 = true → (stmts.foldl (scanStep doc c) acc).2.1 = true := by
  intro stmts
  induction stmts with
  | nil => intro acc h; exact h
  | cons s rest ih =>
    intro acc h
    rw [List.foldl_cons]
    cases s with
    | other a b => exact ih acc h
    | importDecl d =>
      by_cases hold : d.moduleSpecifier == c.oldImportPath
      · have : (scanStep doc c acc (Statement.importDecl d)).2.1 = true := by
          simp [scanStep, hold, h]
        exact ih _ this
      · by_cases hnew : d.moduleSpecifier == c.newImportPath
        · have : (scanStep doc c acc (Statement.importDecl d)).2.1 = true := by
            simp [scanStep, hold, hnew]
          exact ih _ this
        · have : (scanStep doc c acc (Statement.importDecl d)).2.1 = true := by
            simp [scanStep, hold, hnew, h]
          exact ih _ this

theorem scan_flag_of_witness (doc : TextDocument) (c : ImportChange) :
    ∀ (stmts : List Statement) (acc : List ImportEdit × Bool × Nat),
      someImportBindsAtNew c stmts = true → noOldImportBinds c stmts = true →
      (stmts.foldl (scanStep doc c) acc).2.1 = true := by
  intro stmts
  induction stmts with
  | nil => intro acc h _; simp [someImportBindsAtNew] at h
  | cons s rest ih =>
    intro acc hsome hnold
    rw [List.foldl_cons]
    cases s with
    | other a b =>
      simp only [noOldImportBinds, List.all_cons, Bool.and_eq_true] at hnold
      have hrest : someImportBindsAtNew c rest = true := by
        simpa [someImportBindsAtNew] using hsome
      exact ih acc hrest hnold.2
    | importDecl d =>
      simp only [noOldImportBinds, List.all_cons, Bool.and_eq_true] at hnold
      simp only [someImportBindsAtNew, List.any_cons, Bool.or_eq_true] at hsome
      cases hsome with
      | inl hwit =>
        rw [Bool.and_eq_true] at hwit
        have hnew : d.moduleSpecifier == c.newImportPath := hwit.1
        have hnotold : ¬ (d.moduleSpecifier == c.oldImportPath) := by
          intro hold
          have := hnold.1
          simp only [hold, Bool.not_true, Bool.false_or] at this
          rw [hwit.2] at this
          exact absurd this (by simp)
        have hstep : (scanStep doc c acc (Statement.importDecl d)).2.1 = true := by
          simp [scanStep, hnotold, hnew]
        exact scan_flag_monotone doc c rest _ hstep
      | inr hrest =>
        have hrest2 : someImportBindsAtNew c rest = true := by
          simpa [someImportBindsAtNew] using hrest
        exact ih _ hrest2 hnold.2

theorem scan_lastpos (doc : TextDocument) (c : ImportChange) :
    ∀ (stmts : List Statement) (acc : List ImportEdit × Bool × Nat),
      (stmts.foldl (scanStep doc c) acc).2.2 =
        stmts.foldl (fun a s =>
          match s with
          | Statement.importDecl d => d.endOff
          | Statement.other _ _ => a) acc.2.2 := by
  intro stmts
  induction stmts with
  | nil => intro acc; rfl
  | cons s rest ih =>
    intro acc
    rw [List.foldl_cons, List.foldl_cons]
    cases s with
    | other a b => exact ih acc
    | importDecl d =>
      by_cases hold : d.moduleSpecifier == c.oldImportPath
      · have hstep : scanStep doc c acc (Statement.importDecl d) =
            (acc.1 ++ handleOldImportPath d doc c, acc.2.1, d.endOff) := by
          simp [scanStep, hold]
        rw [hstep, ih]
      · by_cases hnew : d.moduleSpecifier == c.newImportPath
        · have hstep : scanStep doc c acc (Statement.importDecl d) =
              (acc.1 ++ handleNewImportPath d doc c, true, d.endOff) := by
            simp [scanStep, hold, hnew]
          rw [hstep, ih]
        · have hstep : scanStep doc c acc (Statement.importDecl d) =
              (acc.1, acc.2.1, d.endOff) := by
            simp [scanStep, hold, hnew]
          rw [hstep, ih]

theorem scan_flag_stays_false (doc : TextDocument) (c : ImportChange) :
    ∀ (stmts : List Statement) (acc : List ImportEdit × Bool × Nat),
      noImportAtNewSpecifier c stmts = true → acc.2.1 = false →
      (stmts.foldl (scanStep doc c) acc).2.1 = false := by
  intro stmts
  induction stmts with
  | nil => intro acc _ h; exact h
  | cons s rest ih =>
    intro acc hno hacc
    rw [List.foldl_cons]
    cases s with
    | other a b =>
      simp only [noImportAtNewSpecifier, List.all_cons, Bool.and_eq_true] at hno
      exact ih acc hno.2 hacc
    | importDecl d =>
      simp only [noImportAtNewSpecifier, List.all_cons, Bool.and_eq_true] at hno
      have hnotnew : ¬ (d.moduleSpecifier == c.newImportPath) := by
        intro hn
        have := hno.1
        rw [hn] at this
        exact absurd this (by simp)
      by_cases hold : d.moduleSpecifier == c.oldImportPath
      · have hstep : (scanStep doc c acc (Statement.importDecl d)).2.1 = acc.2.1 := by
          simp [scanStep, hold]
        exact ih _ hno.2 (by rw [hstep]; exact hacc)
      · have hstep : (scanStep doc c acc (Statement.importDecl d)).2.1 = acc.2.1 := by
          simp [scanStep, hold, hnotnew]
        exact ih _ hno.2 (by rw [hstep]; exact hacc)

theorem lastImportOffset_of_noImports :
    ∀ (stmts : List Statement), hasNoImports stmts = true → lastImportOffset stmts = 0 := by
  have general : ∀ (stmts : List Statement) (a : Nat), hasNoImports stmts = true →
      stmts.foldl (fun acc s =>
        match s with
        | Statement.importDecl d => d.endOff
        | Statement.other _ _ => acc) a = a := by
    intro stmts
    induction stmts with
    | nil => intro a _; rfl
    | cons s rest ih =>
      intro a hno
      rw [List.foldl_cons]
      cases s with
      | other x y =>
        simp only [hasNoImports, List.all_cons, Bool.and_eq_true] at hno
        exact ih a hno.2
      | importDecl d =>
        simp only [hasNoImports, List.all_cons, Bool.and_eq_true] at hno
        exact absurd hno.1 (by simp)
  intro stmts h
  exact general stmts 0 h

theorem lineOf_zero (text : List Char) : lineOf text 0 = 0 := by
  simp [lineOf]

/-! ## Claim theorems -/

/-- Claim C1: a declaration at the new specifier whose named bindings
lack the moved name is replaced by an import binding exactly the
existing names plus the moved name, sorted under the JS string order. -/
theorem C1_merge_into_existing_sorted (d : ImportDeclarationNode) (doc : TextDocument)
    (c : ImportChange) (clause : ImportClause) (es : List String)
    (hcl : d.importClause = some clause)
    (hnb : clause.namedBindings = some (NamedBindings.namedImports es))
    (hnotin : es.contains c.typeName = false)
    (_hspec : d.moduleSpecifier = c.newImportPath) :
    handleNewImportPath d doc c =
      [createEdit d.startOff d.endOff
        (mkImportText (if clause.isTypeOnly || c.isTypeOnly then "type " else "")
          (joinWith ", " (jsSortStrings (es ++ [c.typeName]))) d.moduleSpecifier) doc]
    ∧ List.Perm (jsSortStrings (es ++ [c.typeName])) (es ++ [c.typeName])
    ∧ List.Sorted (fun a b => strLe a b = true) (jsSortStrings (es ++ [c.typeName])) := by
  refine ⟨?_, jsSortStrings_perm _, jsSortStrings_sorted _⟩
  have hnm : ¬ c.typeName ∈ es := contains_false_not_mem es c.typeName hnotin
  simp [handleNewImportPath, hcl, hnb, hnotin, hnm]

theorem C1_witness :
    (c1decl.importClause = some c1clause
     ∧ c1clause.namedBindings = some (NamedBindings.namedImports ["X"])
     ∧ (["X"].contains "Y") = false
     ∧ c1decl.moduleSpecifier = c1change.newImportPath)
    ∧ (handleNewImportPath c1decl mergeDoc c1change =
        [createEdit c1decl.startOff c1decl.endOff
          (mkImportText (if c1clause.isTypeOnly || c1change.isTypeOnly then "type " else "")
            (joinWith ", " (jsSortStrings (["X"] ++ [c1change.typeName]))) c1decl.moduleSpecifier)
          mergeDoc]
      ∧ List.Perm (jsSortStrings (["X"] ++ [c1change.typeName])) (["X"] ++ [c1change.typeName])
      ∧ List.Sorted (fun a b => strLe a b = true) (jsSortStrings (["X"] ++ [c1change.typeName])))
    ∧ mkImportText "" (joinWith ", " (jsSortStrings ["X", "Y"])) "p" =
        "import \x7b X, Y \x7d from \x22p\x22;" :=
  ⟨⟨rfl, rfl, by decide, rfl⟩,
   C1_merge_into_existing_sorted c1decl mergeDoc c1change c1clause ["X"] rfl rfl (by decide) rfl,
   by decide⟩

/-- Claim C2: the merged import at the new specifier is rendered
type-only exactly when the existing clause or the incoming change is
type-only; in particular an existing type-only import never loses the
keyword. -/
theorem C2_merge_type_only_union (d : ImportDeclarationNode) (doc : TextDocument)
    (c : ImportChange) (clause : ImportClause) (es : List String)
    (hcl : d.importClause = some clause)
    (hnb : clause.namedBindings = some (NamedBindings.namedImports es))
    (hnotin : es.contains c.typeName = false)
    (_hspec : d.moduleSpecifier = c.newImportPath) :
    ∃ kw, handleNewImportPath d doc c =
        [createEdit d.startOff d.endOff
          (mkImportText kw (joinWith ", " (jsSortStrings (es ++ [c.typeName]))) d.moduleSpecifier)
          doc]
      ∧ ((kw = "type ") ↔ (clause.isTypeOnly = true ∨ c.isTypeOnly = true))
      ∧ (clause.isTypeOnly = true → kw = "type ") := by
  refine ⟨if clause.isTypeOnly || c.isTypeOnly then "type " else "", ?_, ?_, ?_⟩
  · have hnm : ¬ c.typeName ∈ es := contains_false_not_mem es c.typeName hnotin
    simp [handleNewImportPath, hcl, hnb, hnotin, hnm]
  · cases hb1 : clause.isTypeOnly <;> cases hb2 : c.isTypeOnly <;> simp
  · intro hb1; simp [hb1]

theorem C2_witness :
    (c2decl.importClause = some c2clause
     ∧ c2clause.namedBindings = some (NamedBindings.namedImports ["X"])
     ∧ (["X"].contains "Y") = false
     ∧ c2decl.moduleSpecifier = c2change.newImportPath
     ∧ c2clause.isTypeOnly = true ∧ c2change.isTypeOnly = false)
    ∧ (∃ kw, handleNewImportPath c2decl mergeDoc c2change =
        [createEdit c2decl.startOff c2decl.endOff
          (mkImportText kw (joinWith ", " (jsSortStrings (["X"] ++ [c2change.typeName])))
            c2decl.moduleSpecifier) mergeDoc]
      ∧ ((kw = "type ") ↔ (c2clause.isTypeOnly = true ∨ c2change.isTypeOnly = true))
      ∧ (c2clause.isTypeOnly = true → kw = "type ")) :=
  ⟨⟨rfl, rfl, by decide, rfl, rfl, rfl⟩,
   C2_merge_type_only_union c2decl mergeDoc c2change c2clause ["X"] rfl rfl (by decide) rfl⟩

/-- Claim C3 fails on the code: for a non-type-only declaration binding
Zeta, Foo, Alpha at the old specifier and a type-only change moving
Foo, the replacement keeps the original binding order and gains the
type keyword, unlike the sorted type-free import the claim predicts. -/
theorem C3_counterexample :
    handleOldImportPath c3decl mergeDoc c3change =
      [createEdit c3decl.startOff c3decl.endOff
        "import type \x7b Zeta, Alpha \x7d from \x22./old\x22;" mergeDoc]
    ∧ clauseIsTypeOnly c3decl = false
    ∧ specC3ReplacementText c3decl c3change = "import \x7b Alpha, Zeta \x7d from \x22./old\x22;"
    ∧ handleOldImportPath c3decl mergeDoc c3change ≠
        [createEdit c3decl.startOff c3decl.endOff (specC3ReplacementText c3decl c3change)
          mergeDoc] := by
  refine ⟨by decide, by decide, by decide, by decide⟩

/-- Claim C3 amended: the replacement at the old specifier lists the
remaining bindings in their original order, and carries the type
keyword exactly when the original declaration or the incoming change is
type-only. -/
theorem C3_amended_old_import_replacement (d : ImportDeclarationNode) (doc : TextDocument)
    (c : ImportChange) (clause : ImportClause) (es : List String)
    (hcl : d.importClause = some clause)
    (hnb : clause.namedBindings = some (NamedBindings.namedImports es))
    (hmem : es.contains c.typeName = true)
    (hsole : soleBinding es c.typeName = false) :
    ∃ kw, handleOldImportPath d doc c =
        [createEdit d.startOff d.endOff
          (mkImportText kw (joinWith ", " (es.filter (fun e => e != c.typeName)))
            d.moduleSpecifier) doc]
      ∧ ((kw = "type ") ↔ (clause.isTypeOnly = true ∨ c.isTypeOnly = true))
      ∧ (es.filter (fun e => e != c.typeName)).Sublist es
      ∧ ∀ x, x ∈ es.filter (fun e => e != c.typeName) ↔ (x ∈ es ∧ x ≠ c.typeName) := by
  refine ⟨if clause.isTypeOnly || c.isTypeOnly then "type " else "", ?_, ?_,
    List.filter_sublist es, ?_⟩
  · have hm : c.typeName ∈ es := (strContains_iff es c.typeName).mp hmem
    simp [handleOldImportPath, hcl, hnb, hsole, hmem, hm]
  · cases hb1 : clause.isTypeOnly <;> cases hb2 : c.isTypeOnly <;> simp
  · intro x
    constructor
    · intro hx
      have hmf := List.mem_filter.mp hx
      refine ⟨hmf.1, ?_⟩
      intro heq
      rw [heq] at hmf
      simp at hmf
    · intro hx
      refine List.mem_filter.mpr ⟨hx.1, ?_⟩
      simpa using hx.2

theorem C3_witness :
    (c3decl.importClause = some c3clause
     ∧ c3clause.namedBindings = some (NamedBindings.namedImports ["Zeta", "Foo", "Alpha"])
     ∧ (["Zeta", "Foo", "Alpha"].contains "Foo") = true
     ∧ soleBinding ["Zeta", "Foo", "Alpha"] "Foo" = false)
    ∧ (∃ kw, handleOldImportPath c3decl mergeDoc c3change =
        [createEdit c3decl.startOff c3decl.endOff
          (mkImportText kw (joinWith ", " (["Zeta", "Foo", "Alpha"].filter
            (fun e => e != c3change.typeName))) c3decl.moduleSpecifier) mergeDoc]
      ∧ ((kw = "type ") ↔ (c3clause.isTypeOnly = true ∨ c3change.isTypeOnly = true))
      ∧ (["Zeta", "Foo", "Alpha"].filter (fun e => e != c3change.typeName)).Sublist
          ["Zeta", "Foo", "Alpha"]
      ∧ ∀ x, x ∈ ["Zeta", "Foo", "Alpha"].filter (fun e => e != c3change.typeName) ↔
          (x ∈ ["Zeta", "Foo", "Alpha"] ∧ x ≠ c3change.typeName)) :=
  ⟨⟨rfl, rfl, by decide, by decide⟩,
   C3_amended_old_import_replacement c3decl mergeDoc c3change c3clause ["Zeta", "Foo", "Alpha"]
     rfl rfl (by decide) (by decide)⟩

/-- Claim C4 fails on the code for an import-free file: the
synthesized import is inserted at line one, not at the top. -/
theorem C4_counterexample :
    hasNoImports c4doc.statements = true
    ∧ calculateEditsForDocument c4doc c4change =
        [⟨⟨⟨1, 0⟩, ⟨1, 0⟩⟩, importStatementText c4change⟩]
    ∧ calculateEditsForDocument c4doc c4change ≠
        [⟨⟨⟨0, 0⟩, ⟨0, 0⟩⟩, importStatementText c4change⟩] := by
  refine ⟨by decide, by decide, by decide⟩

/-- Claim C4 amended: when no declaration sits at the new specifier the
rewriter adds exactly one synthesized import, at column zero of the
line after the line holding the end of the last import; an import-free
file therefore receives it at line one, not at the file top. -/
theorem C4_amended_new_import_insertion (doc : TextDocument) (c : ImportChange)
    (h : noImportAtNewSpecifier c doc.statements = true) :
    calculateEditsForDocument doc c =
      sortEdits ((scanImports doc c).1 ++ [newImportEdit doc c])
    ∧ List.Perm (calculateEditsForDocument doc c)
        ((scanImports doc c).1 ++ [newImportEdit doc c])
    ∧ (newImportEdit doc c).range.startPos.line =
        lineOf doc.text (lastImportOffset doc.statements) + 1
    ∧ (hasNoImports doc.statements = true →
        (newImportEdit doc c).range.startPos.line = 1) := by
  have hflag : (scanImports doc c).2.1 = false :=
    scan_flag_stays_false doc c doc.statements ([], false, 0) h rfl
  have hlast : (scanImports doc c).2.2 = lastImportOffset doc.statements :=
    scan_lastpos doc c doc.statements ([], false, 0)
  have hadd : addNewImport (scanImports doc c).2.2 doc c = [newImportEdit doc c] := by
    rw [hlast]; rfl
  have hmain : calculateEditsForDocument doc c =
      sortEdits ((scanImports doc c).1 ++ [newImportEdit doc c]) := by
    rw [calculateEditsForDocument, hflag, hadd]
    simp
  refine ⟨hmain, ?_, rfl, ?_⟩
  · rw [hmain]; exact sortEdits_perm _
  · intro hni
    show lineOf doc.text (lastImportOffset doc.statements) + 1 = 1
    rw [lastImportOffset_of_noImports doc.statements hni, lineOf_zero]

theorem C4_witness :
    noImportAtNewSpecifier c4change c4doc.statements = true
    ∧ (calculateEditsForDocument c4doc c4change =
        sortEdits ((scanImports c4doc c4change).1 ++ [newImportEdit c4doc c4change])
      ∧ List.Perm (calculateEditsForDocument c4doc c4change)
          ((scanImports c4doc c4change).1 ++ [newImportEdit c4doc c4change])
      ∧ (newImportEdit c4doc c4change).range.startPos.line =
          lineOf c4doc.text (lastImportOffset c4doc.statements) + 1
      ∧ (hasNoImports c4doc.statements = true →
          (newImportEdit c4doc c4change).range.startPos.line = 1)) :=
  ⟨by decide, C4_amended_new_import_insertion c4doc c4change (by decide)⟩

/-- Claim C5 fails on the code: the relative specifier computed for the
new sibling file keeps its ts extension, so b.ts is rewritten to import
from ./c.ts, not ./c. -/
theorem C5_counterexample :
    (calculateChanges resolverNoAlias parseScenario "Foo" fooDecl "/proj/c.ts" ["/proj/b.ts"]
        storeABC).1.toOption =
      some ⟨[c5change], fooDecl⟩
    ∧ c5change.newImportPath = "./c.ts"
    ∧ strEndsWithB c5change.newImportPath ".ts" = true
    ∧ c5change.newImportPath ≠ "./c" := by
  refine ⟨by decide, by decide, by decide, by decide⟩

/-- Claim C5 amended: in the scenario the computed specifier is the
dot-slash relative path with the ts extension retained; a.ts loses the
interface text, c.ts is created holding exactly the declaration, and
b.ts receives the deletion of its old import plus the insertion of
an import of Foo from ./c.ts. -/
theorem C5_amended_scenario :
    resolveImportPath resolverNoAlias "/proj/b.ts" "/proj/c.ts" = "./c.ts"
    ∧ strStartsWithB "./c.ts" "./" = true
    ∧ (calculateChanges resolverNoAlias parseScenario "Foo" fooDecl "/proj/c.ts" ["/proj/b.ts"]
        storeABC).1.toOption = some ⟨[c5change], fooDecl⟩
    ∧ (deleteTypeFromSource storeABC "/proj/a.ts" 0 35) "/proj/a.ts" = some "\n"
    ∧ (createDestinationFile (deleteTypeFromSource storeABC "/proj/a.ts" 0 35) "/proj/c.ts"
        fooDecl) "/proj/c.ts" = some fooDecl
    ∧ calculateEditsForDocument bDoc c5change =
        [⟨⟨⟨1, 0⟩, ⟨1, 0⟩⟩, "import \x7b Foo \x7d from \x22./c.ts\x22;\n"⟩,
         ⟨⟨⟨0, 0⟩, ⟨0, 26⟩⟩, ""⟩] := by
  refine ⟨by decide, by decide, by decide, by decide, by decide, by decide⟩

/-- Claim C6: the entry loop takes the first pattern whose resolved
target directory is a string-prefix of the file path, and under the
claimed configuration the helper path always resolves to its alias with
the extension stripped, whatever the importing file. -/
theorem C6_alias_first_match :
    (∀ absBase p entries, tryAliasEntries absBase p entries =
        (entries.find? (entryMatches absBase p)).map (entryResult absBase p))
    ∧ tryMatchPathAlias aliasCfg "/root/src/utils/helper.ts" = some "@/utils/helper"
    ∧ (∀ fromPath, resolveImportPath aliasCfg fromPath "/root/src/utils/helper.ts" =
        "@/utils/helper")
    ∧ tryMatchPathAlias aliasCfg "/root/src/utils/helper.tsx" = some "@/utils/helper" := by
  refine ⟨?_, by decide, ?_, by decide⟩
  · intro absBase p entries
    induction entries with
    | nil => rfl
    | cons e rest ih =>
      by_cases hm : entryMatches absBase p e
      · simp [tryAliasEntries, List.find?, hm]
      · simp [tryAliasEntries, List.find?, hm, ih]
  · intro fromPath
    have halias : tryMatchPathAlias aliasCfg "/root/src/utils/helper.ts" =
        some "@/utils/helper" := by decide
    simp [resolveImportPath, halias]

/-- Claim C7: the existing-import scan folds over the statements in
file order and reports the specifier and type-only flag of the final
matching import whose named bindings include the type name, or the empty result
when none matches. -/
theorem C7_last_match_wins (stmts : List Statement) (typeName : String) :
    findExistingImportPath stmts typeName =
      (((matchingImports stmts typeName).getLast?).map
        (fun d => (d.moduleSpecifier, clauseIsTypeOnly d))).getD ("", false) :=
  findFoldAux typeName stmts ("", false)

/-- Claim C8 fails on the code: a file with one import at the new
specifier binding the name and a second import at the same specifier
lacking it satisfies the claimed precondition yet still receives a
merge edit. -/
theorem C8_counterexample :
    someImportBindsAtNew c8change c8doc.statements = true
    ∧ noOldImportBinds c8change c8doc.statements = true
    ∧ calculateEditsForDocument c8doc c8change ≠ [] := by
  refine ⟨by decide, by decide, by decide⟩

/-- Claim C8 amended: when some import at the new specifier binds the
name, every named-bindings import at the new specifier already binds
it, and no import at the old specifier binds it, the rewriter produces
zero edits. -/
theorem C8_amended_idempotence (doc : TextDocument) (c : ImportChange)
    (h1 : someImportBindsAtNew c doc.statements = true)
    (h2 : allNewImportsBind c doc.statements = true)
    (h3 : noOldImportBinds c doc.statements = true) :
    calculateEditsForDocument doc c = [] := by
  have hnil : (scanImports doc c).1 = [] :=
    scan_edits_eq_acc doc c doc.statements ([], false, 0) h2 h3
  have hflag : (scanImports doc c).2.1 = true :=
    scan_flag_of_witness doc c doc.statements ([], false, 0) h1 h3
  rw [calculateEditsForDocument, hflag, hnil]
  simp [sortEdits]

theorem C8_witness :
    (someImportBindsAtNew c8change c8wdoc.statements = true
     ∧ allNewImportsBind c8change c8wdoc.statements = true
     ∧ noOldImportBinds c8change c8wdoc.statements = true)
    ∧ calculateEditsForDocument c8wdoc c8change = [] :=
  ⟨⟨by decide, by decide, by decide⟩,
   C8_amended_idempotence c8wdoc c8change (by decide) (by decide) (by decide)⟩

theorem loadTsConfig_paths_none (env : ConfigEnv) (root : String)
    (h : configLoadFailed env root = true) : (loadTsConfig env root).paths = none := by
  by_cases hr : root = ""
  · simp [loadTsConfig, hr]
  · have hbeq : (root == "") = false := by
      simp [hr]
    rw [configLoadFailed, hbeq, Bool.false_or] at h
    cases hcp : effectiveConfigPath env root with
    | none => simp [loadTsConfig, hr, hcp]
    | some cp =>
      have h2 : (!env.fileExists cp ||
          (match env.readConfig cp with
           | Except.error _ => true
           | Except.ok raw => raw.paths.isNone)) = true := by
        rw [hcp] at h
        exact h
      by_cases hfe : env.fileExists cp = true
      · rw [hfe] at h2
        simp only [Bool.not_true, Bool.false_or] at h2
        cases hrc : env.readConfig cp with
        | error e => simp [loadTsConfig, hr, hcp, hfe, hrc]
        | ok raw =>
          rw [hrc] at h2
          have hpn : raw.paths = none := Option.isNone_iff_eq_none.mp h2
          simp [loadTsConfig, hr, hcp, hfe, hrc, hpn]
      · have hfe2 : env.fileExists cp = false := by
          cases hb : env.fileExists cp
          · rfl
          · exact absurd hb hfe
        simp [loadTsConfig, hr, hcp, hfe2]

/-- Claim C9: every configuration-load failure leaves the resolver in
the degraded state where no path ever matches an alias and every import
path resolves to the relative fallback; construction itself is total
and surfaces nothing. -/
theorem C9_config_failure_degrades (env : ConfigEnv) (root : String)
    (h : configLoadFailed env root = true) :
    (∀ p, tryMatchPathAlias (loadTsConfig env root) p = none)
    ∧ (∀ f t, resolveImportPath (loadTsConfig env root) f t = relativeSpecifier f t) := by
  have hpaths : (loadTsConfig env root).paths = none := loadTsConfig_paths_none env root h
  constructor
  · intro p
    rw [tryMatchPathAlias, hpaths]
  · intro f t
    rw [resolveImportPath, tryMatchPathAlias, hpaths]

theorem C9_witness :
    configLoadFailed failEnv "/workspace" = true
    ∧ tryMatchPathAlias (loadTsConfig failEnv "/workspace") "/workspace/src/a.ts" = none
    ∧ resolveImportPath (loadTsConfig failEnv "/workspace") "/workspace/b.ts" "/workspace/c.ts" =
        relativeSpecifier "/workspace/b.ts" "/workspace/c.ts" :=
  ⟨by decide,
   (C9_config_failure_degrades failEnv "/workspace" (by decide)).1 "/workspace/src/a.ts",
   (C9_config_failure_degrades failEnv "/workspace" (by decide)).2 "/workspace/b.ts" "/workspace/c.ts"⟩

theorem calcRefLoop_preserves_store (st : ResolverState) (parse : String → List Statement)
    (typeName destPath : String) :
    ∀ (refs : List String) (store : FileStore),
      (calcRefLoop st parse typeName destPath refs store).2 = store := by
  intro refs
  induction refs with
  | nil => intro store; rfl
  | cons uri rest ih =>
    intro store
    cases hs : store uri with
    | none => simp [calcRefLoop, hs]
    | some text =>
      by_cases hskip : (findExistingImportPath (parse text) typeName).1 == ""
      · simp only [calcRefLoop, hs, hskip, if_pos]
        exact ih store
      · cases hrec : calcRefLoop st parse typeName destPath rest store with
        | mk res store1 =>
          have hst : store1 = store := by
            have := ih store
            rw [hrec] at this
            exact this
          cases res with
          | ok cs => simp [calcRefLoop, hs, hskip, hrec, hst]
          | error e => simp [calcRefLoop, hs, hskip, hrec, hst]

/-- Claim C10: calculateChanges is a pure computation over the document
store: it only reads the referencing documents and returns the change
set, leaving every document of the store exactly as it was. -/
theorem C10_calculateChanges_pure (st : ResolverState) (parse : String → List Statement)
    (typeName nodeText destPath : String) (references : List String) (store : FileStore) :
    (calculateChanges st parse typeName nodeText destPath references store).2 = store := by
  rw [calculateChanges]
  cases hrec : calcRefLoop st parse typeName destPath references store with
  | mk res store1 =>
    have hst : store1 = store := by
      have := calcRefLoop_preserves_store st parse typeName destPath references store
      rw [hrec] at this
      exact this
    cases res with
    | ok cs => simpa using hst
    | error e => simpa using hst

end RefRefactor

